import Mathlib

/-!
Verification of the orbital-camera movie driver (`movie.py`).

The script computes successive camera positions on a spherical orbit around a
fixed look-at point and, for each frame, invokes an external raytracer and an
external image converter.  We embed the numeric tuple functions over `ℝ`
(Python floats are modelled as real numbers), and the per-frame file/process
side effects of `render_image` as explicit state passing over an abstract
per-frame file-system record.
-/

namespace Movie

/-- Python 3-tuples of numbers, used both for Cartesian vectors and for
spherical `(radius, polar, azimuth)` triples. -/
abbrev V3 := ℝ × ℝ × ℝ

/-- Componentwise tuple addition (source `add`, lines 49-52). -/
def add (a b : V3) : V3 := (a.1 + b.1, a.2.1 + b.2.1, a.2.2 + b.2.2)

/-- Componentwise tuple negation (source `minus`, lines 54-56). -/
def minus (a : V3) : V3 := (-a.1, -a.2.1, -a.2.2)

/-- The two-argument arctangent `math.atan2 y x`: the argument of the complex
number with real part `x` and imaginary part `y`.  Like Python's `atan2`, it
is total, has range `(-π, π]`, and satisfies `atan2 0 0 = 0`. -/
noncomputable def atan2 (y x : ℝ) : ℝ := Complex.arg ⟨x, y⟩

/-- Source `cart_to_polar` (lines 35-40): Cartesian to spherical. -/
noncomputable def cart_to_polar (v : V3) : V3 :=
  (Real.sqrt (v.1 * v.1 + v.2.1 * v.2.1 + v.2.2 * v.2.2),
   atan2 (Real.sqrt (v.1 * v.1 + v.2.1 * v.2.1)) v.2.2,
   atan2 v.2.1 v.1)

/-- Source `polar_to_cart` (lines 42-47): spherical to Cartesian. -/
noncomputable def polar_to_cart (p : V3) : V3 :=
  (p.1 * Real.cos p.2.2 * Real.sin p.2.1,
   p.1 * Real.sin p.2.2 * Real.sin p.2.1,
   p.1 * Real.cos p.2.1)

/-- Euclidean magnitude of a tuple (the radius computed by `cart_to_polar`). -/
noncomputable def mag (v : V3) : ℝ :=
  Real.sqrt (v.1 * v.1 + v.2.1 * v.2.1 + v.2.2 * v.2.2)

/-- Source `grad = pi / 180` (line 64): one degree in radians. -/
noncomputable def grad : ℝ := Real.pi / 180

/-- One orbit-state advance (source line 70):
`p_delta = add(p_delta, (0, step_grad*grad, 0))`. -/
noncomputable def advance (step : ℝ) (s : V3) : V3 := add s (0, step * grad, 0)

/-- `k` successive advances of the orbit state. -/
noncomputable def advanceIter (step : ℝ) : ℕ → V3 → V3
  | 0, s => s
  | k + 1, s => advance step (advanceIter step k s)

/-- Source module-level constants (lines 10-11, 58-62). -/
def step_grad : ℚ := 1 / 2

/-- Source `nframes = 10`. -/
def nframes : ℕ := 10

/-- Source `origin = (278, 278, 400)`. -/
noncomputable def origin : V3 := (278, 278, 400)

/-- Source `start = (478, 278, -600)`. -/
noncomputable def start : V3 := (478, 278, -600)

/-- Source `delta = add(start, minus(origin))`. -/
noncomputable def delta : V3 := add start (minus origin)

/-- Source `p_delta = cart_to_polar(delta)`. -/
noncomputable def p_delta : V3 := cart_to_polar delta

/-- Abstract per-frame file/process state for `render_image`: whether the raw
`.ppm` artifact and the `.png` artifact exist, and whether the converter
process has been invoked for this frame. -/
structure FrameFS where
  rawExists : Bool
  pngExists : Bool
  convertInvoked : Bool
deriving DecidableEq

/-- Source line 19: `open(fn + ".ppm", "w")` creates the raw artifact. -/
def openRaw (fs : FrameFS) : FrameFS := { fs with rawExists := true }

/-- Source lines 20-30: the raytracer child process writes its stdout into the
raw artifact.  Its exit status is bound to `result` but never inspected, so
the file state does not depend on `exitCode`. -/
def runEngine (exitCode : ℤ) (fs : FrameFS) : FrameFS := fs

/-- Source line 32: `subprocess.run(["convert", ...])`; the converter is
invoked unconditionally and produces the png exactly when it succeeds.  Its
exit status is not inspected by the script. -/
def runConvert (exitCode : ℤ) (fs : FrameFS) : FrameFS :=
  { fs with
    convertInvoked := true
    pngExists := if exitCode = 0 then true else fs.pngExists }

/-- Source line 33: `os.remove(fn + ".ppm")`, executed unconditionally. -/
def removeRaw (fs : FrameFS) : FrameFS := { fs with rawExists := false }

/-- Source `render_image` (lines 15-33) as a state transformer over the
per-frame file state, parametrised by the exit codes of the two external
processes. -/
def render_image (engineExit convertExit : ℤ) (fs : FrameFS) : FrameFS :=
  removeRaw (runConvert convertExit (runEngine engineExit (openRaw fs)))

/-- File state before a frame is processed: no artifacts, no processes run. -/
def initFS : FrameFS := ⟨false, false, false⟩

/-- Modelled from the spec: the run-level failure policy (`abort` vs
`continue`, spec section 4.3e) is absent from the source, whose loop
(lines 66-70) never inspects per-frame outcomes and always continues. -/
inductive Policy
  | abort
  | cont
deriving DecidableEq

/-- Modelled from the spec: the PipelineDriver frame loop.  `runFrom p o i m`
attempts frames `i, i+1, ...` for `m` remaining frames, where `o j` tells
whether frame `j` succeeds; it records the attempted indices in order and,
under the `abort` policy, stops after the first failed frame.  Under the
`cont` policy it reproduces the source loop `for i in range(0, nframes)`. -/
def runFrom (p : Policy) (o : ℕ → Bool) : ℕ → ℕ → List ℕ
  | _, 0 => []
  | i, m + 1 =>
    i :: (if o i = false ∧ p = Policy.abort then [] else runFrom p o (i + 1) m)

/-- The list of frame indices attempted by a run of `n` frames. -/
def attempts (p : Policy) (o : ℕ → Bool) (n : ℕ) : List ℕ := runFrom p o 0 n

theorem abs_mk (x y : ℝ) : Complex.abs ⟨x, y⟩ = Real.sqrt (x * x + y * y) := by
  rw [Complex.abs_apply, Complex.normSq_mk]

theorem mk_eq_zero_iff (x y : ℝ) : (⟨x, y⟩ : ℂ) = 0 ↔ x = 0 ∧ y = 0 := by
  simp [Complex.ext_iff]

theorem sin_atan2 (y x : ℝ) :
    Real.sin (atan2 y x) = y / Real.sqrt (x * x + y * y) := by
  unfold atan2
  rw [Complex.sin_arg, abs_mk]

theorem cos_atan2 (y x : ℝ) (h : ¬(x = 0 ∧ y = 0)) :
    Real.cos (atan2 y x) = x / Real.sqrt (x * x + y * y) := by
  unfold atan2
  rw [Complex.cos_arg (fun hc => h ((mk_eq_zero_iff x y).mp hc)), abs_mk]

theorem atan2_zero_zero : atan2 0 0 = 0 := by
  unfold atan2
  rw [(mk_eq_zero_iff 0 0).mpr ⟨rfl, rfl⟩, Complex.arg_zero]

theorem roundtrip_aux (x y z : ℝ) :
    polar_to_cart (cart_to_polar (x, y, z)) = (x, y, z) := by
  have hxy : (0:ℝ) ≤ x * x + y * y := add_nonneg (mul_self_nonneg x) (mul_self_nonneg y)
  have hxyz : (0:ℝ) ≤ x * x + y * y + z * z := add_nonneg hxy (mul_self_nonneg z)
  have hss : Real.sqrt (x * x + y * y) * Real.sqrt (x * x + y * y) = x * x + y * y :=
    Real.mul_self_sqrt hxy
  have hzs : z * z + Real.sqrt (x * x + y * y) * Real.sqrt (x * x + y * y)
      = x * x + y * y + z * z := by rw [hss]; ring
  simp only [cart_to_polar, polar_to_cart, Prod.mk.injEq]
  by_cases h0 : x * x + y * y + z * z = 0
  · have hx : x = 0 := mul_self_eq_zero.mp (by nlinarith [mul_self_nonneg y, mul_self_nonneg z])
    have hy : y = 0 := mul_self_eq_zero.mp (by nlinarith [mul_self_nonneg x, mul_self_nonneg z])
    have hz : z = 0 := mul_self_eq_zero.mp (by nlinarith [mul_self_nonneg x, mul_self_nonneg y])
    subst hx; subst hy; subst hz
    norm_num
  · have hpos : 0 < x * x + y * y + z * z := lt_of_le_of_ne hxyz (Ne.symm h0)
    have hr : Real.sqrt (x * x + y * y + z * z) ≠ 0 := Real.sqrt_ne_zero'.mpr hpos
    have hne : ¬(z = 0 ∧ Real.sqrt (x * x + y * y) = 0) := by
      rintro ⟨hz0, hs0⟩
      apply h0
      have hxy0 : x * x + y * y = 0 := by rw [← hss, hs0]; ring
      rw [hxy0, hz0]; ring
    have hsin : Real.sin (atan2 (Real.sqrt (x * x + y * y)) z)
        = Real.sqrt (x * x + y * y) / Real.sqrt (x * x + y * y + z * z) := by
      rw [sin_atan2, hzs]
    have hcos : Real.cos (atan2 (Real.sqrt (x * x + y * y)) z)
        = z / Real.sqrt (x * x + y * y + z * z) := by
      rw [cos_atan2 _ _ hne, hzs]
    refine ⟨?_, ?_, ?_⟩
    · rw [hsin]
      by_cases hxy0 : x * x + y * y = 0
      · have hx : x = 0 := mul_self_eq_zero.mp (by nlinarith [mul_self_nonneg y])
        rw [hxy0, hx]
        simp
      · have hspos : 0 < x * x + y * y := lt_of_le_of_ne hxy (Ne.symm hxy0)
        have hs : Real.sqrt (x * x + y * y) ≠ 0 := Real.sqrt_ne_zero'.mpr hspos
        have hcosphi : Real.cos (atan2 y x) = x / Real.sqrt (x * x + y * y) := by
          refine cos_atan2 y x ?_
          rintro ⟨hx0, hy0⟩
          apply hxy0
          rw [hx0, hy0]; ring
        rw [hcosphi]
        field_simp
    · rw [hsin, sin_atan2]
      by_cases hxy0 : x * x + y * y = 0
      · have hy : y = 0 := mul_self_eq_zero.mp (by nlinarith [mul_self_nonneg x])
        rw [hxy0, hy]
        simp
      · have hspos : 0 < x * x + y * y := lt_of_le_of_ne hxy (Ne.symm hxy0)
        have hs : Real.sqrt (x * x + y * y) ≠ 0 := Real.sqrt_ne_zero'.mpr hspos
        field_simp
    · rw [hcos]
      field_simp

theorem advanceIter_eq (step : ℝ) (k : ℕ) (s : V3) :
    advanceIter step k s = (s.1, s.2.1 + k * (step * grad), s.2.2) := by
  induction k with
  | zero => simp [advanceIter]
  | succ k ih =>
    simp only [advanceIter, advance, add, ih, Prod.mk.injEq]
    refine ⟨by ring, ?_, by ring⟩
    push_cast
    ring

theorem runFrom_cont (o : ℕ → Bool) (m : ℕ) :
    ∀ i, runFrom Policy.cont o i m = List.range' i m := by
  induction m with
  | zero => intro i; rfl
  | succ m ih =>
    intro i
    simp only [runFrom]
    rw [if_neg (by simp), ih (i + 1), List.range'_succ i m 1]

theorem attempts_cont_eq_range (o : ℕ → Bool) (n : ℕ) :
    attempts Policy.cont o n = List.range n := by
  unfold attempts
  rw [runFrom_cont o n 0, List.range_eq_range']

theorem runFrom_abort_mem (o : ℕ → Bool) (m : ℕ) :
    ∀ i j, j ∈ runFrom Policy.abort o i m → ∀ t, i ≤ t → t < j → o t = true := by
  induction m with
  | zero =>
    intro i j hj
    simp only [runFrom, List.not_mem_nil] at hj
  | succ m ih =>
    intro i j hj t hit htj
    simp only [runFrom] at hj
    rcases List.mem_cons.mp hj with hji | hjtail
    · omega
    · by_cases hoi : o i = false
      · rw [if_pos ⟨hoi, trivial⟩] at hjtail
        exact absurd hjtail (List.not_mem_nil j)
      · rw [if_neg (by simp [hoi])] at hjtail
        rcases Nat.eq_or_lt_of_le hit with hti | hti
        · subst hti
          simpa using hoi
        · exact ih (i + 1) j hjtail t hti htj

theorem sq_sum_polar (r θ φ : ℝ) :
    r * Real.cos φ * Real.sin θ * (r * Real.cos φ * Real.sin θ) +
      r * Real.sin φ * Real.sin θ * (r * Real.sin φ * Real.sin θ) +
      r * Real.cos θ * (r * Real.cos θ) = r * r := by
  have h1 := Real.sin_sq_add_cos_sq θ
  have h2 := Real.sin_sq_add_cos_sq φ
  linear_combination (r * r * Real.sin θ * Real.sin θ) * h2 + (r * r) * h1

theorem mag_polar_to_cart (r θ φ : ℝ) : mag (polar_to_cart (r, θ, φ)) = |r| := by
  simp only [mag, polar_to_cart]
  rw [sq_sum_polar, Real.sqrt_mul_self_eq_abs]

theorem mag_nonneg (v : V3) : 0 ≤ mag v := Real.sqrt_nonneg _

theorem add_add_minus (o c : V3) : add (add o c) (minus o) = c := by
  obtain ⟨o1, o2, o3⟩ := o
  obtain ⟨c1, c2, c3⟩ := c
  simp only [add, minus, Prod.mk.injEq]
  refine ⟨by ring, by ring, by ring⟩

/-- C1: after `k` calls to `advance` the polar angle equals the initial polar
angle plus `k * step * (π/180)` (here even exactly, so in particular up to
mod 2π), while the radius and azimuth components are exactly unchanged,
independent of their values. -/
theorem advance_steps_polar_only (s : V3) (step : ℝ) (k : ℕ) :
    (advanceIter step k s).1 = s.1 ∧
    (advanceIter step k s).2.1 = s.2.1 + k * (step * (Real.pi / 180)) ∧
    (advanceIter step k s).2.2 = s.2.2 := by
  rw [advanceIter_eq]
  exact ⟨rfl, rfl, rfl⟩

/-- C2: for every vector `v` of nonzero magnitude, `polar_to_cart
(cart_to_polar v)` reproduces `v` — in the real-number model the round trip
is exact, which in particular is within the spec's `1e-9` relative
tolerance. -/
theorem cart_polar_roundtrip (v : V3) (h : mag v ≠ 0) :
    polar_to_cart (cart_to_polar v) = v := by
  obtain ⟨x, y, z⟩ := v
  exact roundtrip_aux x y z

/-- Witness for C2 at the concrete vector `(13, 2, 3)`. -/
theorem cart_polar_roundtrip_witness :
    mag (13, 2, 3) ≠ 0 ∧ polar_to_cart (cart_to_polar (13, 2, 3)) = ((13:ℝ), 2, 3) := by
  have h : mag ((13:ℝ), 2, 3) ≠ 0 := by
    simp only [mag]
    positivity
  exact ⟨h, cart_polar_roundtrip (13, 2, 3) h⟩

/-- C3: a run of `frame_count = n` frames attempts exactly the indices
`0, …, n-1`, in strictly increasing order, never more and never fewer, under
the continue failure policy — whatever the per-frame outcomes `o` are. -/
theorem run_attempts_exactly_n (o : ℕ → Bool) (n : ℕ) :
    attempts Policy.cont o n = List.range n ∧
    (attempts Policy.cont o n).length = n ∧
    List.Pairwise (· < ·) (attempts Policy.cont o n) := by
  have h := attempts_cont_eq_range o n
  exact ⟨h, by rw [h, List.length_range], by rw [h]; exact List.pairwise_lt_range n⟩

/-- C4 counterexample: with a successful render (engine exit 0) and a failed
conversion (converter exit 1), the raw artifact does NOT exist after
`render_image` returns — the script removes the `.ppm` unconditionally, so
the claim's retention clause is false. -/
theorem conversion_failure_raw_deleted_cex :
    ¬ ((render_image 0 1 initFS).rawExists = true) := by decide

/-- C4 amended: after `render_image` returns, the raw artifact does not
exist, regardless of the engine's and the converter's exit statuses — the
source deletes the `.ppm` unconditionally (line 33). -/
theorem raw_always_removed (engineExit convertExit : ℤ) (fs : FrameFS) :
    (render_image engineExit convertExit fs).rawExists = false := rfl

/-- C5 counterexample: when the render engine exits with status 1, the
converter is nevertheless invoked and the raw artifact is nevertheless
removed — the script never inspects the engine's exit status. -/
theorem engine_failure_ignored_cex :
    (render_image 1 0 initFS).rawExists = false ∧
    (render_image 1 0 initFS).convertInvoked = true := by decide

/-- C5 amended: if the render engine exits with a non-zero status,
`render_image` does not fail and does not skip conversion: the converter is
still invoked and the raw artifact is still removed, because the exit status
bound to `result` is never inspected. -/
theorem engine_exit_ignored (engineExit convertExit : ℤ) (fs : FrameFS)
    (h : engineExit ≠ 0) :
    (render_image engineExit convertExit fs).convertInvoked = true ∧
    (render_image engineExit convertExit fs).rawExists = false := ⟨rfl, rfl⟩

/-- Witness for the amended C5 at engine exit status 1. -/
theorem engine_exit_ignored_witness :
    (1:ℤ) ≠ 0 ∧ ((render_image 1 0 initFS).convertInvoked = true ∧
      (render_image 1 0 initFS).rawExists = false) :=
  ⟨by decide, engine_exit_ignored 1 0 initFS (by decide)⟩

/-- C6: under the abort policy, if frame `k` fails then no frame with index
greater than `k` is ever attempted. -/
theorem abort_stops_after_failure (o : ℕ → Bool) (n k : ℕ) (hk : o k = false) :
    ∀ j, k < j → j ∉ attempts Policy.abort o n := by
  intro j hkj hmem
  have h := runFrom_abort_mem o n 0 j hmem k (Nat.zero_le k) hkj
  rw [hk] at h
  exact Bool.false_ne_true h

/-- Witness for C6: with frame 2 failing among 5 frames, frame 3 is not
attempted. -/
theorem abort_stops_after_failure_witness :
    (fun i => decide (i ≠ 2)) 2 = false ∧ 2 < 3 ∧
      3 ∉ attempts Policy.abort (fun i => decide (i ≠ 2)) 5 :=
  ⟨by decide, by decide,
    abort_stops_after_failure (fun i => decide (i ≠ 2)) 5 2 (by decide) 3 (by decide)⟩

/-- C7: a zero offset is accepted without error: `cart_to_polar` of the zero
vector yields radius 0 and both angles 0 (`atan2 0 0 = 0`), and for every
number of advances the camera stays exactly at the look-at point. -/
theorem zero_offset_stationary (o₀ : V3) (step : ℝ) :
    cart_to_polar (0, 0, 0) = ((0:ℝ), 0, 0) ∧
    ∀ k : ℕ, add o₀ (polar_to_cart (advanceIter step k (cart_to_polar (0, 0, 0)))) = o₀ := by
  have h0 : cart_to_polar ((0:ℝ), 0, 0) = ((0:ℝ), 0, 0) := by
    simp only [cart_to_polar]
    norm_num [atan2_zero_zero]
  refine ⟨h0, fun k => ?_⟩
  rw [h0, advanceIter_eq]
  obtain ⟨a, b, c⟩ := o₀
  simp only [polar_to_cart, add]
  norm_num

/-- C8: no bounds check is applied to the polar angle: for every initial
spherical state, any polar angle `θ` (also outside `[0, π]`) and any number
of accumulated steps, `polar_to_cart` is defined and given by the
everywhere-defined sine/cosine formula, and the frame loop still attempts
all `n` frames. -/
theorem polar_advance_total (r θ φ step : ℝ) (k n : ℕ) (o : ℕ → Bool) :
    polar_to_cart (advanceIter step k (r, θ, φ)) =
      (r * Real.cos φ * Real.sin (θ + k * (step * grad)),
       r * Real.sin φ * Real.sin (θ + k * (step * grad)),
       r * Real.cos (θ + k * (step * grad))) ∧
    (attempts Policy.cont o n).length = n := by
  constructor
  · rw [advanceIter_eq]
    rfl
  · rw [attempts_cont_eq_range, List.length_range]

/-- C9: the spherical triple returned by `cart_to_polar` always satisfies
the SphericalVector invariant: radius ≥ 0, polar angle in `[0, π]`, azimuth
angle in `(-π, π]`. -/
theorem cart_to_polar_in_range (v : V3) :
    0 ≤ (cart_to_polar v).1 ∧
    (0 ≤ (cart_to_polar v).2.1 ∧ (cart_to_polar v).2.1 ≤ Real.pi) ∧
    (-Real.pi < (cart_to_polar v).2.2 ∧ (cart_to_polar v).2.2 ≤ Real.pi) := by
  obtain ⟨x, y, z⟩ := v
  simp only [cart_to_polar, atan2]
  exact ⟨Real.sqrt_nonneg _,
    ⟨Complex.arg_nonneg_iff.mpr (Real.sqrt_nonneg _), Complex.arg_le_pi _⟩,
    ⟨Complex.neg_pi_lt_arg _, Complex.arg_le_pi _⟩⟩

/-- C10: `polar_to_cart (r, θ, φ)` satisfies `x² + y² + z² = r²`, and since
`advance` never changes the radius component, every frame's lookfrom lies at
the same distance from the origin, namely the magnitude of the initial
offset `start - origin`. -/
theorem orbit_radius_invariant (r θ φ : ℝ) (st o₀ : V3) (step : ℝ) (k : ℕ) :
    (polar_to_cart (r, θ, φ)).1 * (polar_to_cart (r, θ, φ)).1 +
      (polar_to_cart (r, θ, φ)).2.1 * (polar_to_cart (r, θ, φ)).2.1 +
      (polar_to_cart (r, θ, φ)).2.2 * (polar_to_cart (r, θ, φ)).2.2 = r * r ∧
    mag (add (add o₀
        (polar_to_cart (advanceIter step k (cart_to_polar (add st (minus o₀))))))
      (minus o₀)) = mag (add st (minus o₀)) := by
  constructor
  · simp only [polar_to_cart]
    exact sq_sum_polar r θ φ
  · rw [add_add_minus, advanceIter_eq, mag_polar_to_cart]
    exact abs_of_nonneg (mag_nonneg _)

end Movie
